import Mathlib

/-!
Verification of the WhisperRecorder C glue layer
(`src/WhisperRecorder/Sources/CWhisper/whisper_wrapper.c`).

The development shallowly embeds the two components of the file:

* `read_wav_file` — the WAV decoder.  A file is a `List ℕ` of bytes
  (every byte is reduced `% 256`, as C memory holds `unsigned char`
  values).  IEEE-float samples are exact rationals `ℚ`; the 32-bit
  branch, which reinterprets four raw bytes as an IEEE float, is
  abstracted by a parameter `floatOfBits : ℕ → ℚ`.
* the transcription facade (`whisper_wrapper_transcribe_with_lang`,
  `whisper_wrapper_transcribe_pcm_with_lang` and their short forms,
  plus `whisper_wrapper_free` / `whisper_wrapper_is_loaded`).  The
  external whisper engine is an oracle (`Engine`), heap allocation
  success is an oracle (`List Bool`, empty list = every allocation
  succeeds), and the side effects relevant to the specification are
  recorded as an event trace.  A `strcat` that would write past the
  end of the result buffer is undefined behaviour in C; the model
  reports it as `ret = none`.
-/

namespace WhisperWrapper

/- Batteries marks the arithmetic on `ℚ` `@[irreducible]`, which blocks
`decide` on concrete decoder runs; re-allow unfolding for this file. -/
attribute [local semireducible] Rat.add Rat.mul Rat.inv Rat.sub

/-- Byte `k` of a byte buffer.  C buffers hold `unsigned char`, hence the
`% 256`; all accesses performed by the code are in range, so the `getD`
default is never observable on the paths the code takes. -/
def byteAt (l : List ℕ) (k : ℕ) : ℕ := l.getD k 0 % 256

/-- Two's-complement reading of a 16-bit value (C `short`). -/
def toSigned16 (n : ℕ) : ℤ :=
  if n % 65536 < 32768 then (n % 65536 : ℤ) else (n % 65536 : ℤ) - 65536

/-- Two's-complement reading of a 32-bit value (C `int`). -/
def toSigned32 (n : ℕ) : ℤ :=
  if n % 4294967296 < 2147483648 then (n % 4294967296 : ℤ)
  else (n % 4294967296 : ℤ) - 4294967296

/-- Unsigned little-endian 16-bit read at byte offset `off`. -/
def readU16 (l : List ℕ) (off : ℕ) : ℕ :=
  byteAt l off + 256 * byteAt l (off + 1)

/-- Unsigned little-endian 32-bit read at byte offset `off`. -/
def readU32 (l : List ℕ) (off : ℕ) : ℕ :=
  byteAt l off + 256 * byteAt l (off + 1) + 65536 * byteAt l (off + 2) +
    16777216 * byteAt l (off + 3)

/-- `*(short *)(buf + off)` on the little-endian targets the code runs on. -/
def readS16 (l : List ℕ) (off : ℕ) : ℤ := toSigned16 (readU16 l off)

/-- `*(int *)(buf + off)` on the little-endian targets the code runs on. -/
def readS32 (l : List ℕ) (off : ℕ) : ℤ := toSigned32 (readU32 l off)

/-- The 24-bit branch of `read_wav_file` (whisper_wrapper.c:273-275):
`int sample = (buf[3k] << 8) | (buf[3k+1] << 16) | (buf[3k+2] << 24);`
the shift of the high byte wraps the 32-bit `int`. -/
def sample24 (data : List ℕ) (k : ℕ) : ℤ :=
  toSigned32 ((byteAt data (3 * k) <<< 8) ||| (byteAt data (3 * k + 1) <<< 16) |||
    (byteAt data (3 * k + 2) <<< 24))

/-- `memcmp(header, "RIFF", 4) == 0` (whisper_wrapper.c:82). -/
def hasRIFF (f : List ℕ) : Prop :=
  byteAt f 0 = 82 ∧ byteAt f 1 = 73 ∧ byteAt f 2 = 70 ∧ byteAt f 3 = 70

/-- `memcmp(header + 8, "WAVE", 4) == 0` (whisper_wrapper.c:82). -/
def hasWAVE (f : List ℕ) : Prop :=
  byteAt f 8 = 87 ∧ byteAt f 9 = 65 ∧ byteAt f 10 = 86 ∧ byteAt f 11 = 69

instance (f : List ℕ) : Decidable (hasRIFF f) := by unfold hasRIFF; infer_instance

instance (f : List ℕ) : Decidable (hasWAVE f) := by unfold hasWAVE; infer_instance

/-- The decoder's output: `(*pcm, *samples, *sample_rate)`; the sample count
is the length of `pcm`. -/
structure DecodedAudio where
  pcm : List ℚ
  sampleRate : ℤ
deriving DecidableEq

/-- Embedding of `read_wav_file` (whisper_wrapper.c:63-287).  The argument
is `none` when `fopen` fails, `some file` with the file's bytes otherwise.
`false` returns of the C function become `none`.  The C code reads the
`data_size` sample bytes into a separate buffer `buf`; every index the
conversion loops use is strictly below `data_size` (the sample count is
`data_size` divided down), so indexing the tail `file.drop 44` directly is
observation-equivalent. -/
def read_wav_file (floatOfBits : ℕ → ℚ) : Option (List ℕ) → Option DecodedAudio
  | none => none
  | some file =>
    if file.length < 44 then none
    else if ¬ (hasRIFF file ∧ hasWAVE file) then none
    else
      let sample_rate : ℤ := readS32 file 24
      let num_channels : ℤ := readS16 file 22
      let bits_per_sample : ℤ := readS16 file 34
      let data_size : ℤ := readS32 file 40
      if data_size ≤ 0 then none
      else if num_channels ≤ 0 then none
      else if bits_per_sample ≠ 16 ∧ bits_per_sample ≠ 32 ∧
          bits_per_sample ≠ 8 ∧ bits_per_sample ≠ 24 then none
      else
        let ds : ℕ := data_size.toNat
        let ch : ℕ := num_channels.toNat
        let nsamples : ℕ := ds / (bits_per_sample.toNat / 8) / ch
        if nsamples = 0 then none
        else
          let data := file.drop 44
          if data.length < ds then none
          else if bits_per_sample = 16 then
            some ⟨List.ofFn fun i : Fin nsamples =>
              (∑ j ∈ Finset.range ch, (readS16 data (2 * (i.val * ch + j)) : ℚ) / 32768) / (ch : ℚ),
              sample_rate⟩
          else if bits_per_sample = 32 then
            some ⟨List.ofFn fun i : Fin nsamples =>
              (∑ j ∈ Finset.range ch, floatOfBits (readU32 data (4 * (i.val * ch + j)))) / (ch : ℚ),
              sample_rate⟩
          else if bits_per_sample = 8 then
            some ⟨List.ofFn fun i : Fin nsamples =>
              (∑ j ∈ Finset.range ch, ((byteAt data (i.val * ch + j) : ℚ) - 128) / 128) / (ch : ℚ),
              sample_rate⟩
          else if bits_per_sample = 24 then
            some ⟨List.ofFn fun i : Fin nsamples =>
              (∑ j ∈ Finset.range ch, (sample24 data (i.val * ch + j) : ℚ) / 2147483648) / (ch : ℚ),
              sample_rate⟩
          else none

/-- A 46-byte, 16-bit, 2-channel, 16000 Hz WAV file holding one frame
with samples `+16384` and `-16384`; used to exercise the decoder. -/
def wav16 : List ℕ :=
  [82, 73, 70, 70, 38, 0, 0, 0, 87, 65, 86, 69,
   102, 109, 116, 32, 16, 0, 0, 0, 1, 0,
   2, 0,
   128, 62, 0, 0,
   0, 125, 0, 0, 4, 0,
   16, 0,
   100, 97, 116, 97,
   4, 0, 0, 0,
   0, 64, 0, 192]

/-! ## Transcription facade -/

/-- The fields of `struct whisper_full_params` that `setup_params` and the
transcription functions touch (whisper_wrapper.c:290-306, 433-434). -/
structure FullParams where
  print_realtime : Bool
  print_progress : Bool
  print_timestamps : Bool
  print_special : Bool
  translate : Bool
  language : String
  n_threads : ℤ
  offset_ms : ℤ
  max_len : ℤ
  max_tokens : ℤ
  duration_ms : ℤ
  split_on_word : Bool
  no_context : Bool
  single_segment : Bool
deriving DecidableEq

/-- Embedding of `setup_params` (whisper_wrapper.c:290-306). -/
def setup_params (params : FullParams) (use_language_detection : Bool) : FullParams :=
  { params with
    print_realtime := false
    print_progress := false
    print_timestamps := false
    print_special := false
    translate := false
    language := if use_language_detection then "auto" else "en"
    n_threads := 4
    offset_ms := 0
    max_len := 0
    max_tokens := 0
    duration_ms := 0
    split_on_word := true }

/-- The external whisper engine, abstracted as the three operations the
wrapper consumes after `whisper_full`: its return status, the segment
count, and each segment's text, all as functions of the inference call's
inputs (parameters, samples, sample count). -/
structure Engine where
  fullStatus : FullParams → List ℚ → ℤ → ℤ
  nSegments : FullParams → List ℚ → ℤ → ℤ
  segmentText : FullParams → List ℚ → ℤ → ℕ → String

/-- `struct whisper_wrapper` (whisper_wrapper.c:8-12): `ctx` records
whether the engine context pointer is non-null, `result_buffer` the
owned result string (`none` = `NULL`). -/
structure Wrapper where
  ctx : Bool
  result_buffer : Option String
deriving DecidableEq

/-- Side effects of a call, recorded in order. -/
inductive Event where
  | freeResultBuffer
  | decodeCalled
  | engineFullCalled
  | freePcm
  | freeCtx
  | freeWrapper
deriving DecidableEq

/-- Outcome of a transcription call: the returned string (`none` models the
undefined behaviour of a `strcat` past the end of the result buffer), the
handle afterwards, and the trace of side effects. -/
structure CallResult where
  ret : Option String
  wrapper : Option Wrapper
  events : List Event
deriving DecidableEq

def invalidParamsMsg : String := "Error: Invalid parameters"
def loadErrorMsg : String := "Error: Failed to load audio file"
def processErrorMsg : String := "Error: Failed to process audio with whisper"
def allocErrorMsg : String := "Error: Failed to allocate memory for transcription"
def noSpeechMsg : String := "No speech detected"

/-- Draw the next answer from the allocation oracle; an exhausted oracle
always succeeds. -/
def takeAlloc : List Bool → Bool × List Bool
  | [] => (true, [])
  | b :: rest => (b, rest)

/-- C `INT_MAX` for the 32-bit `int` of the target platforms.  The loop's
`buffer_size`, `current_length` and `segment_length` are all C `int`s. -/
def intMax : ℕ := 2147483647

/-- Result of the segment-concatenation loop (whisper_wrapper.c:375-403):
either undefined behaviour (a `strcat` wrote past the buffer, or the
`int` arithmetic on lengths/capacity overflowed), the `realloc`-failed
early return, or the finished buffer with its final capacity and the
remaining allocation oracle. -/
inductive LoopResult where
  | ub
  | allocFail
  | done (buf : String) (cap : ℕ) (allocs : List Bool)
deriving DecidableEq

/-- The two `strcat` calls of one loop iteration (whisper_wrapper.c:396-402):
append the segment text, then a single space unless this is the last
segment.  A write needing more than `cap` bytes (text plus terminating
NUL) is undefined behaviour. -/
def appendPart (seg : String) (isLast : Bool) (buf : String) (cap : ℕ)
    (allocs : List Bool) : LoopResult :=
  if buf.length + seg.length + 1 > cap then .ub
  else
    let buf := buf ++ seg
    if isLast then .done buf cap allocs
    else if buf.length + 2 > cap then .ub
    else .done (buf ++ " ") cap allocs

/-- One iteration of the concatenation loop (whisper_wrapper.c:375-403):
when `current_length + segment_length + 2 > buffer_size`, the capacity is
doubled once (`buffer_size *= 2`) via `realloc`; a failed `realloc` takes
the early-return path.  The lengths and the capacity are C `int`s: a
length sum past `INT_MAX` (the `strlen`-to-`int` narrowing and the `int`
addition in the check) and a doubling past `INT_MAX` (signed overflow in
`buffer_size *= 2`) are undefined behaviour, modelled as `.ub`. -/
def concatStep (seg : String) (isLast : Bool) (buf : String) (cap : ℕ)
    (allocs : List Bool) : LoopResult :=
  if buf.length + seg.length + 2 > intMax then .ub
  else if buf.length + seg.length + 2 > cap then
    if cap * 2 > intMax then .ub
    else if (takeAlloc allocs).1 then appendPart seg isLast buf (cap * 2) (takeAlloc allocs).2
    else .allocFail
  else appendPart seg isLast buf cap allocs

/-- The whole concatenation loop over the remaining segment texts. -/
def concatGo : List String → String → ℕ → List Bool → LoopResult
  | [], buf, cap, allocs => .done buf cap allocs
  | seg :: rest, buf, cap, allocs =>
    match concatStep seg rest.isEmpty buf cap allocs with
    | .ub => .ub
    | .allocFail => .allocFail
    | .done buf cap allocs => concatGo rest buf cap allocs

/-- The list of segment texts the engine reports after an inference call:
`whisper_full_get_segment_text(ctx, i)` for `0 ≤ i < n_segments`. -/
def segmentTexts (E : Engine) (params : FullParams) (pcm : List ℚ) (n : ℤ) : List String :=
  (List.range (E.nSegments params pcm n).toNat).map (E.segmentText params pcm n)

/-- The shared tail of both transcription functions after a successful
`whisper_full` (whisper_wrapper.c:358-405 and 444-491): query the segment
count, allocate the 16 KiB result buffer, run the concatenation loop, and
store the result (or a sentinel) in the handle.  `w` is the handle with
the previous result already released; `ev` the trace so far. -/
def collectResult (E : Engine) (params : FullParams) (pcm : List ℚ) (n : ℤ)
    (allocs : List Bool) (w : Wrapper) (ev : List Event) : CallResult :=
  if E.nSegments params pcm n ≤ 0 then
    { ret := some noSpeechMsg, wrapper := some { w with result_buffer := some noSpeechMsg },
      events := ev }
  else if (takeAlloc allocs).1 = false then
    { ret := some allocErrorMsg, wrapper := some { w with result_buffer := none },
      events := ev }
  else
    match concatGo (segmentTexts E params pcm n) "" 16384 (takeAlloc allocs).2 with
    | .ub => { ret := none, wrapper := some { w with result_buffer := none }, events := ev }
    | .allocFail =>
      { ret := some allocErrorMsg,
        wrapper := some { w with result_buffer := some allocErrorMsg }, events := ev }
    | .done buf _ _ =>
      { ret := some buf, wrapper := some { w with result_buffer := some buf }, events := ev }

/-- The part of `whisper_wrapper_transcribe_with_lang` after the previous
result has been released (whisper_wrapper.c:322-405), acting on a handle
`w1` whose `result_buffer` is already `NULL`. -/
def transcribeFileTail (E : Engine) (defaultParams : FullParams) (floatOfBits : ℕ → ℚ)
    (allocs : List Bool) (w1 : Wrapper) (contents : Option (List ℕ))
    (use_language_detection : Bool) : CallResult :=
  match read_wav_file floatOfBits contents with
  | none =>
    { ret := some loadErrorMsg, wrapper := some { w1 with result_buffer := some loadErrorMsg },
      events := [Event.decodeCalled] }
  | some audio =>
    let params := setup_params defaultParams use_language_detection
    let n : ℤ := audio.pcm.length
    if E.fullStatus params audio.pcm n ≠ 0 then
      { ret := some processErrorMsg,
        wrapper := some { w1 with result_buffer := some processErrorMsg },
        events := [Event.decodeCalled, Event.engineFullCalled, Event.freePcm] }
    else
      collectResult E params audio.pcm n allocs w1
        [Event.decodeCalled, Event.engineFullCalled, Event.freePcm]

/-- Embedding of `whisper_wrapper_transcribe_with_lang`
(whisper_wrapper.c:308-406).  `wrapper = none` is a `NULL` handle;
`audio_path = none` a `NULL` path, `some contents` a path whose `fopen`
yields `contents`. -/
def whisper_wrapper_transcribe_with_lang (E : Engine) (defaultParams : FullParams)
    (floatOfBits : ℕ → ℚ) (allocs : List Bool) (wrapper : Option Wrapper)
    (audio_path : Option (Option (List ℕ))) (use_language_detection : Bool) : CallResult :=
  match wrapper, audio_path with
  | none, _ => { ret := some invalidParamsMsg, wrapper := none, events := [] }
  | some w, none => { ret := some invalidParamsMsg, wrapper := some w, events := [] }
  | some w, some contents =>
    if w.ctx = false then { ret := some invalidParamsMsg, wrapper := some w, events := [] }
    else
      let ev0 := if w.result_buffer.isSome then [Event.freeResultBuffer] else []
      let r := transcribeFileTail E defaultParams floatOfBits allocs
        { w with result_buffer := none } contents use_language_detection
      { r with events := ev0 ++ r.events }

/-- Embedding of `whisper_wrapper_transcribe` (whisper_wrapper.c:409-412). -/
def whisper_wrapper_transcribe (E : Engine) (defaultParams : FullParams)
    (floatOfBits : ℕ → ℚ) (allocs : List Bool) (wrapper : Option Wrapper)
    (audio_path : Option (Option (List ℕ))) : CallResult :=
  whisper_wrapper_transcribe_with_lang E defaultParams floatOfBits allocs wrapper audio_path true

/-- The part of `whisper_wrapper_transcribe_pcm_with_lang` after the
previous result has been released (whisper_wrapper.c:428-491). -/
def transcribePcmTail (E : Engine) (defaultParams : FullParams) (allocs : List Bool)
    (w1 : Wrapper) (pcm : List ℚ) (n_samples : ℤ) (use_language_detection : Bool) : CallResult :=
  let params0 := setup_params defaultParams use_language_detection
  let params := { params0 with no_context := true, single_segment := true }
  if E.fullStatus params pcm n_samples ≠ 0 then
    { ret := some processErrorMsg,
      wrapper := some { w1 with result_buffer := some processErrorMsg },
      events := [Event.engineFullCalled] }
  else
    collectResult E params pcm n_samples allocs w1 [Event.engineFullCalled]

/-- Embedding of `whisper_wrapper_transcribe_pcm_with_lang`
(whisper_wrapper.c:414-492).  `pcm_data = none` is a `NULL` sample
pointer. -/
def whisper_wrapper_transcribe_pcm_with_lang (E : Engine) (defaultParams : FullParams)
    (allocs : List Bool) (wrapper : Option Wrapper) (pcm_data : Option (List ℚ))
    (n_samples : ℤ) (use_language_detection : Bool) : CallResult :=
  match wrapper, pcm_data with
  | none, _ => { ret := some invalidParamsMsg, wrapper := none, events := [] }
  | some w, none => { ret := some invalidParamsMsg, wrapper := some w, events := [] }
  | some w, some pcm =>
    if w.ctx = false ∨ n_samples ≤ 0 then
      { ret := some invalidParamsMsg, wrapper := some w, events := [] }
    else
      let ev0 := if w.result_buffer.isSome then [Event.freeResultBuffer] else []
      let r := transcribePcmTail E defaultParams allocs { w with result_buffer := none }
        pcm n_samples use_language_detection
      { r with events := ev0 ++ r.events }

/-- Embedding of `whisper_wrapper_transcribe_pcm` (whisper_wrapper.c:495-498). -/
def whisper_wrapper_transcribe_pcm (E : Engine) (defaultParams : FullParams)
    (allocs : List Bool) (wrapper : Option Wrapper) (pcm_data : Option (List ℚ))
    (n_samples : ℤ) : CallResult :=
  whisper_wrapper_transcribe_pcm_with_lang E defaultParams allocs wrapper pcm_data n_samples true

/-- Embedding of `whisper_wrapper_free` (whisper_wrapper.c:36-54), as the
trace of deallocations it performs. -/
def whisper_wrapper_free : Option Wrapper → List Event
  | none => []
  | some w =>
    (if w.ctx then [Event.freeCtx] else []) ++
      (if w.result_buffer.isSome then [Event.freeResultBuffer] else []) ++ [Event.freeWrapper]

/-- Embedding of `whisper_wrapper_is_loaded` (whisper_wrapper.c:56-59):
`wrapper != NULL && wrapper->ctx != NULL`. -/
def whisper_wrapper_is_loaded : Option Wrapper → Bool
  | none => false
  | some w => w.ctx

/-- Specification-side definition (for claim C1): the concatenation of the
segment texts with exactly one space between consecutive segments and no
trailing space. -/
def joinSpace : List String → String
  | [] => ""
  | [s] => s
  | s :: rest => s ++ " " ++ joinSpace rest

/-- An engine stub used by the concrete witnesses: inference always
succeeds with two segments, "hello" and "world". -/
def stubEngine2 : Engine :=
  { fullStatus := fun _ _ _ => 0
    nSegments := fun _ _ _ => 2
    segmentText := fun _ _ _ i => if i = 0 then "hello" else "world" }

/-- An arbitrary concrete default-parameter record for the witnesses
(standing for `whisper_full_default_params(WHISPER_SAMPLING_GREEDY)`). -/
def P0 : FullParams :=
  { print_realtime := true, print_progress := true, print_timestamps := true
    print_special := true, translate := true, language := "xx", n_threads := 1
    offset_ms := 7, max_len := 9, max_tokens := 9, duration_ms := 9
    split_on_word := false, no_context := false, single_segment := false }

/-- A single segment of 32768 bytes: the smallest text for which the
single doubling of the result buffer (16384 → 32768) still cannot hold
text plus terminating NUL. -/
def bigSeg : String := String.mk (List.replicate 32768 'a')

/-- An engine whose inference succeeds and reports exactly one segment of
32768 bytes. -/
def overflowEngine : Engine :=
  { fullStatus := fun _ _ _ => 0
    nSegments := fun _ _ _ => 1
    segmentText := fun _ _ _ _ => bigSeg }

/-- A 47-byte, 24-bit, mono WAV file holding one sample with data bytes
1, 2, 3; used to exercise the 24-bit decoder branch. -/
def wav24 : List ℕ :=
  [82, 73, 70, 70, 39, 0, 0, 0, 87, 65, 86, 69,
   102, 109, 116, 32, 16, 0, 0, 0, 1, 0,
   1, 0,
   128, 62, 0, 0,
   0, 125, 0, 0, 3, 0,
   24, 0,
   100, 97, 116, 97,
   3, 0, 0, 0,
   1, 2, 3]

/-- A 44-byte header with valid RIFF/WAVE tags but 12 bits per sample. -/
def wavBadBits : List ℕ :=
  [82, 73, 70, 70, 36, 0, 0, 0, 87, 65, 86, 69,
   102, 109, 116, 32, 16, 0, 0, 0, 1, 0,
   1, 0,
   128, 62, 0, 0,
   0, 125, 0, 0, 2, 0,
   12, 0,
   100, 97, 116, 97,
   4, 0, 0, 0]

/-- An engine whose inference always fails with status 1. -/
def failEngine : Engine :=
  { fullStatus := fun _ _ _ => 1
    nSegments := fun _ _ _ => 0
    segmentText := fun _ _ _ _ => "" }

/-! ## Helper lemmas -/

theorem byteAt_append (l₁ l₂ : List ℕ) (k : ℕ) (h : k < l₁.length) :
    byteAt (l₁ ++ l₂) k = byteAt l₁ k := by
  unfold byteAt
  rw [List.getD_append _ _ _ _ h]

theorem readU16_append (l₁ l₂ : List ℕ) (off : ℕ) (h : off + 1 < l₁.length) :
    readU16 (l₁ ++ l₂) off = readU16 l₁ off := by
  unfold readU16
  rw [byteAt_append _ _ _ (by omega), byteAt_append _ _ _ h]

theorem readU32_append (l₁ l₂ : List ℕ) (off : ℕ) (h : off + 3 < l₁.length) :
    readU32 (l₁ ++ l₂) off = readU32 l₁ off := by
  unfold readU32
  rw [byteAt_append _ _ _ (by omega), byteAt_append _ _ _ (by omega),
    byteAt_append _ _ _ (by omega), byteAt_append _ _ _ h]

theorem readS16_append (l₁ l₂ : List ℕ) (off : ℕ) (h : off + 1 < l₁.length) :
    readS16 (l₁ ++ l₂) off = readS16 l₁ off := by
  unfold readS16; rw [readU16_append _ _ _ h]

theorem readS32_append (l₁ l₂ : List ℕ) (off : ℕ) (h : off + 3 < l₁.length) :
    readS32 (l₁ ++ l₂) off = readS32 l₁ off := by
  unfold readS32; rw [readU32_append _ _ _ h]

theorem toSigned16_lb (n : ℕ) : -32768 ≤ toSigned16 n := by
  unfold toSigned16
  have := Nat.mod_lt n (show 0 < 65536 by norm_num)
  split <;> omega

theorem toSigned16_ub (n : ℕ) : toSigned16 n ≤ 32767 := by
  unfold toSigned16
  have := Nat.mod_lt n (show 0 < 65536 by norm_num)
  split <;> omega

/-! ## Claim theorems -/

/-- C9: the short transcription forms are exactly the language-detection
variants applied with `use_language_detection = true`:
`whisper_wrapper_transcribe` agrees with
`whisper_wrapper_transcribe_with_lang _ _ true`, and
`whisper_wrapper_transcribe_pcm` with
`whisper_wrapper_transcribe_pcm_with_lang _ _ true`, on every input. -/
theorem C9_short_forms (E : Engine) (dp : FullParams) (fob : ℕ → ℚ) (allocs : List Bool)
    (wrapper : Option Wrapper) (audio_path : Option (Option (List ℕ)))
    (pcm_data : Option (List ℚ)) (n_samples : ℤ) :
    whisper_wrapper_transcribe E dp fob allocs wrapper audio_path =
      whisper_wrapper_transcribe_with_lang E dp fob allocs wrapper audio_path true ∧
    whisper_wrapper_transcribe_pcm E dp allocs wrapper pcm_data n_samples =
      whisper_wrapper_transcribe_pcm_with_lang E dp allocs wrapper pcm_data n_samples true :=
  ⟨rfl, rfl⟩

/-- C10: passing a `NULL` handle to the lifecycle and query operations is
safe: `whisper_wrapper_free NULL` performs no deallocation at all, and
`whisper_wrapper_is_loaded` returns `true` exactly when the handle is
non-null and holds a non-null engine context (in particular `false` on a
`NULL` handle). -/
theorem C10_null_handle_safety :
    whisper_wrapper_free none = [] ∧
    whisper_wrapper_is_loaded none = false ∧
    ∀ wrapper : Option Wrapper,
      whisper_wrapper_is_loaded wrapper = true ↔ ∃ w, wrapper = some w ∧ w.ctx = true := by
  refine ⟨rfl, rfl, fun wrapper => ?_⟩
  cases wrapper with
  | none => simp [whisper_wrapper_is_loaded]
  | some w => simp [whisper_wrapper_is_loaded]

/-- C4: every transcription call with a `NULL` handle, an unloaded context,
a `NULL` audio path, `NULL` samples, or a non-positive sample count
returns exactly the literal "Error: Invalid parameters", leaves the
handle untouched (in particular the previous result buffer is not
released), and performs no side effect at all (empty event trace: the
decoder and the engine are never invoked). -/
theorem C4_invalid_parameters (E : Engine) (dp : FullParams) (fob : ℕ → ℚ)
    (allocs : List Bool) (lang : Bool) :
    (∀ audio_path, whisper_wrapper_transcribe_with_lang E dp fob allocs none audio_path lang =
      ⟨some invalidParamsMsg, none, []⟩) ∧
    (∀ w audio_path, w.ctx = false →
      whisper_wrapper_transcribe_with_lang E dp fob allocs (some w) audio_path lang =
        ⟨some invalidParamsMsg, some w, []⟩) ∧
    (∀ w, whisper_wrapper_transcribe_with_lang E dp fob allocs (some w) none lang =
      ⟨some invalidParamsMsg, some w, []⟩) ∧
    (∀ pcm_data n, whisper_wrapper_transcribe_pcm_with_lang E dp allocs none pcm_data n lang =
      ⟨some invalidParamsMsg, none, []⟩) ∧
    (∀ w pcm_data n, w.ctx = false →
      whisper_wrapper_transcribe_pcm_with_lang E dp allocs (some w) pcm_data n lang =
        ⟨some invalidParamsMsg, some w, []⟩) ∧
    (∀ w n, whisper_wrapper_transcribe_pcm_with_lang E dp allocs (some w) none n lang =
      ⟨some invalidParamsMsg, some w, []⟩) ∧
    (∀ w pcm n, n ≤ 0 →
      whisper_wrapper_transcribe_pcm_with_lang E dp allocs (some w) (some pcm) n lang =
        ⟨some invalidParamsMsg, some w, []⟩) := by
  refine ⟨fun audio_path => ?_, fun w audio_path hw => ?_, fun w => ?_,
    fun pcm_data n => ?_, fun w pcm_data n hw => ?_, fun w n => ?_, fun w pcm n hn => ?_⟩
  · cases audio_path <;> rfl
  · cases audio_path with
    | none => rfl
    | some contents => simp [whisper_wrapper_transcribe_with_lang, hw]
  · rfl
  · cases pcm_data <;> rfl
  · cases pcm_data with
    | none => rfl
    | some pcm => simp [whisper_wrapper_transcribe_pcm_with_lang, hw]
  · rfl
  · simp [whisper_wrapper_transcribe_pcm_with_lang, hn]

/-- C4 witness: `transcribePCM` with sample count 0 on a loaded handle
that holds a previous result returns "Error: Invalid parameters", keeps
the handle (and its previous buffer) unchanged and triggers no event. -/
theorem C4_witness :
    whisper_wrapper_transcribe_pcm_with_lang stubEngine2 P0 [] (some ⟨true, some "old"⟩)
      (some [0]) 0 true = ⟨some invalidParamsMsg, some ⟨true, some "old"⟩, []⟩ :=
  (C4_invalid_parameters stubEngine2 P0 (fun _ => 0) [] true).2.2.2.2.2.2 ⟨true, some "old"⟩
    [0] 0 (by decide)

/-- C3: as soon as a transcription call passes the invalid-parameter
check, the handle's previous result buffer is released first (the first
recorded event frees it whenever one was held), and neither the returned
text nor the final handle state depends on the previous buffer: the call
behaves exactly as on a handle whose buffer is already clear, so no
completed call can surface stale content — also on failing calls, e.g. a
corrupt WAV stores the load-error sentinel in place of the old result. -/
theorem C3_result_reflects_latest_call (E : Engine) (dp : FullParams) (fob : ℕ → ℚ)
    (allocs : List Bool) (w : Wrapper) (contents : Option (List ℕ)) (pcm : List ℚ)
    (n : ℤ) (lang : Bool) (hctx : w.ctx = true) (hn : 0 < n) :
    ((whisper_wrapper_transcribe_with_lang E dp fob allocs (some w) (some contents) lang).ret =
      (whisper_wrapper_transcribe_with_lang E dp fob allocs (some ⟨w.ctx, none⟩)
        (some contents) lang).ret ∧
     (whisper_wrapper_transcribe_with_lang E dp fob allocs (some w) (some contents) lang).wrapper =
      (whisper_wrapper_transcribe_with_lang E dp fob allocs (some ⟨w.ctx, none⟩)
        (some contents) lang).wrapper ∧
     (w.result_buffer.isSome = true →
      (whisper_wrapper_transcribe_with_lang E dp fob allocs (some w)
        (some contents) lang).events.head? = some Event.freeResultBuffer)) ∧
    ((whisper_wrapper_transcribe_pcm_with_lang E dp allocs (some w) (some pcm) n lang).ret =
      (whisper_wrapper_transcribe_pcm_with_lang E dp allocs (some ⟨w.ctx, none⟩)
        (some pcm) n lang).ret ∧
     (whisper_wrapper_transcribe_pcm_with_lang E dp allocs (some w) (some pcm) n lang).wrapper =
      (whisper_wrapper_transcribe_pcm_with_lang E dp allocs (some ⟨w.ctx, none⟩)
        (some pcm) n lang).wrapper ∧
     (w.result_buffer.isSome = true →
      (whisper_wrapper_transcribe_pcm_with_lang E dp allocs (some w)
        (some pcm) n lang).events.head? = some Event.freeResultBuffer)) := by
  have hn' : ¬ n ≤ 0 := by omega
  constructor
  · refine ⟨?_, ?_, fun hbuf => ?_⟩
    · simp [whisper_wrapper_transcribe_with_lang, hctx]
    · simp [whisper_wrapper_transcribe_with_lang, hctx]
    · simp [whisper_wrapper_transcribe_with_lang, hctx, hbuf]
  · refine ⟨?_, ?_, fun hbuf => ?_⟩
    · simp [whisper_wrapper_transcribe_pcm_with_lang, hctx, hn']
    · simp [whisper_wrapper_transcribe_pcm_with_lang, hctx, hn']
    · simp [whisper_wrapper_transcribe_pcm_with_lang, hctx, hn', hbuf]

/-- C3 witness: on a loaded handle holding a previous result, a file call
whose WAV fails to load behaves exactly as on a clear handle (it stores
the load-error sentinel) and its first event frees the old buffer; a PCM
call on the same handle likewise. -/
theorem C3_witness :
    ((whisper_wrapper_transcribe_with_lang stubEngine2 P0 (fun _ => 0) []
        (some ⟨true, some "old"⟩) (some none) true).ret =
      (whisper_wrapper_transcribe_with_lang stubEngine2 P0 (fun _ => 0) []
        (some ⟨true, none⟩) (some none) true).ret) ∧
    ((whisper_wrapper_transcribe_with_lang stubEngine2 P0 (fun _ => 0) []
        (some ⟨true, some "old"⟩) (some none) true).events.head? =
      some Event.freeResultBuffer) ∧
    ((whisper_wrapper_transcribe_pcm_with_lang stubEngine2 P0 []
        (some ⟨true, some "old"⟩) (some [0]) 1 true).events.head? =
      some Event.freeResultBuffer) := by
  have h := C3_result_reflects_latest_call stubEngine2 P0 (fun _ => 0) [] ⟨true, some "old"⟩
    none [0] 1 true (by decide) (by decide)
  exact ⟨h.1.1, h.1.2.2 (by decide), h.2.2.2 (by decide)⟩

/-- C6: any file shorter than 44 bytes, or whose header lacks the "RIFF"
tag at offset 0 or the "WAVE" tag at offset 8, fails to decode: the
result is `none`, so no (partial) sample buffer is ever handed to the
caller on this path. -/
theorem C6_header_tag_gate (fob : ℕ → ℚ) (file : List ℕ)
    (h : file.length < 44 ∨ ¬ (hasRIFF file ∧ hasWAVE file)) :
    read_wav_file fob (some file) = none := by
  rcases h with h | h
  · simp [read_wav_file, h]
  · by_cases hlen : file.length < 44
    · simp [read_wav_file, hlen]
    · simp [read_wav_file, hlen, h]

/-- C6 witness: a 3-byte file fails to decode. -/
theorem C6_witness : read_wav_file (fun _ => 0) (some [1, 2, 3]) = none :=
  C6_header_tag_gate (fun _ => 0) [1, 2, 3] (by decide)

/-- C7: a 44-byte header whose data size is non-positive, or whose channel
count is non-positive, or whose bits-per-sample is none of 8, 16, 24, 32
(e.g. 12), or for which the computed sample count
`data_size / (bits_per_sample/8) / num_channels` is zero, fails to decode
— and does so before any sample data is read: the result is `none` for
every possible tail of sample bytes after the header. -/
theorem C7_header_field_validation (fob : ℕ → ℚ) (header rest : List ℕ)
    (hlen : header.length = 44)
    (hbad : readS32 header 40 ≤ 0 ∨ readS16 header 22 ≤ 0 ∨
      (readS16 header 34 ≠ 16 ∧ readS16 header 34 ≠ 32 ∧
       readS16 header 34 ≠ 8 ∧ readS16 header 34 ≠ 24) ∨
      (readS32 header 40).toNat / ((readS16 header 34).toNat / 8) /
        (readS16 header 22).toNat = 0) :
    read_wav_file fob (some (header ++ rest)) = none := by
  have hlen' : ¬ ((header ++ rest).length < 44) := by
    simp only [List.length_append, hlen]; omega
  have e22 : readS16 (header ++ rest) 22 = readS16 header 22 :=
    readS16_append _ _ _ (by omega)
  have e34 : readS16 (header ++ rest) 34 = readS16 header 34 :=
    readS16_append _ _ _ (by omega)
  have e40 : readS32 (header ++ rest) 40 = readS32 header 40 :=
    readS32_append _ _ _ (by omega)
  by_cases htag : hasRIFF (header ++ rest) ∧ hasWAVE (header ++ rest)
  · simp only [read_wav_file, if_neg hlen', htag, not_true, if_neg, if_false, e22, e34, e40]
    rcases hbad with h | h | h | h
    · simp [h]
    · simp [h]
    · split_ifs <;> simp_all
    · split_ifs <;> simp_all
  · simp [read_wav_file, hlen', htag]

/-- C7 witness: a well-tagged header declaring 12 bits per sample fails to
decode, whatever sample bytes follow. -/
theorem C7_witness : read_wav_file (fun _ => 0) (some (wavBadBits ++ [0, 0, 0, 0])) = none :=
  C7_header_field_validation (fun _ => 0) wavBadBits [0, 0, 0, 0] (by decide) (by decide)

/-- Inversion of a successful 16-bit decode: the sample list is exactly
the channel-averaged normalized samples, with a positive channel count. -/
theorem read_wav_file_16 (fob : ℕ → ℚ) (file : List ℕ) (audio : DecodedAudio)
    (h : read_wav_file fob (some file) = some audio)
    (hbits : readS16 file 34 = 16) :
    0 < (readS16 file 22).toNat ∧
    audio.pcm = List.ofFn
      (fun i : Fin ((readS32 file 40).toNat / 2 / (readS16 file 22).toNat) =>
        (∑ j ∈ Finset.range (readS16 file 22).toNat,
          (readS16 (file.drop 44) (2 * (i.val * (readS16 file 22).toNat + j)) : ℚ) / 32768) /
          ((readS16 file 22).toNat : ℚ)) := by
  simp only [read_wav_file] at h
  rw [hbits] at h
  norm_num at h
  obtain ⟨-, -, -, hch, -, -, heq⟩ := h
  exact ⟨by omega, by rw [← heq]; rfl⟩

/-- Channel averages of 16-bit normalized samples lie in `[-1, 1]`. -/
theorem avg16_bounds (data : List ℕ) (ch : ℕ) (hch : 0 < ch) (g : ℕ → ℕ) :
    -1 ≤ (∑ j ∈ Finset.range ch, (readS16 data (g j) : ℚ) / 32768) / (ch : ℚ) ∧
    (∑ j ∈ Finset.range ch, (readS16 data (g j) : ℚ) / 32768) / (ch : ℚ) ≤ 1 := by
  have hterm : ∀ j, -1 ≤ (readS16 data (g j) : ℚ) / 32768 ∧
      (readS16 data (g j) : ℚ) / 32768 ≤ 1 := by
    intro j
    have h1 := toSigned16_lb (readU16 data (g j))
    have h2 := toSigned16_ub (readU16 data (g j))
    unfold readS16
    constructor
    · rw [le_div_iff₀ (by norm_num : (0:ℚ) < 32768)]
      have : (-32768 : ℚ) ≤ (toSigned16 (readU16 data (g j)) : ℚ) := by exact_mod_cast h1
      linarith
    · rw [div_le_one (by norm_num : (0:ℚ) < 32768)]
      have : (toSigned16 (readU16 data (g j)) : ℚ) ≤ 32767 := by exact_mod_cast h2
      linarith
  have hchQ : (0:ℚ) < (ch : ℚ) := by exact_mod_cast hch
  have hub : (∑ j ∈ Finset.range ch, (readS16 data (g j) : ℚ) / 32768) ≤ (ch : ℚ) := by
    calc (∑ j ∈ Finset.range ch, (readS16 data (g j) : ℚ) / 32768)
        ≤ ∑ _j ∈ Finset.range ch, (1:ℚ) := Finset.sum_le_sum fun j _ => (hterm j).2
      _ = (ch : ℚ) := by simp
  have hlb : (-(ch : ℚ)) ≤ ∑ j ∈ Finset.range ch, (readS16 data (g j) : ℚ) / 32768 := by
    calc (-(ch:ℚ)) = ∑ _j ∈ Finset.range ch, (-1:ℚ) := by simp
      _ ≤ _ := Finset.sum_le_sum fun j _ => (hterm j).1
  constructor
  · rw [le_div_iff₀ hchQ]; linarith
  · rw [div_le_one hchQ]; linarith

/-- C5: a successful 16-bit decode yields exactly
`data_size / 2 / num_channels` output samples; output sample `i` is the
average over the `num_channels` interleaved 16-bit signed values of frame
`i`, each normalized by 32768, and lies in `[-1, 1]`; for 2 channels it is
the average of the frame's two interleaved input samples. -/
theorem C5_sixteen_bit_decode (fob : ℕ → ℚ) (file : List ℕ) (audio : DecodedAudio)
    (h : read_wav_file fob (some file) = some audio)
    (hbits : readS16 file 34 = 16) :
    audio.pcm.length = (readS32 file 40).toNat / 2 / (readS16 file 22).toNat ∧
    (∀ i, i < (readS32 file 40).toNat / 2 / (readS16 file 22).toNat →
      audio.pcm.getD i 0 =
        (∑ j ∈ Finset.range (readS16 file 22).toNat,
          (readS16 (file.drop 44) (2 * (i * (readS16 file 22).toNat + j)) : ℚ) / 32768) /
          ((readS16 file 22).toNat : ℚ) ∧
      -1 ≤ audio.pcm.getD i 0 ∧ audio.pcm.getD i 0 ≤ 1) ∧
    ((readS16 file 22).toNat = 2 →
      ∀ i, i < (readS32 file 40).toNat / 2 / 2 →
        audio.pcm.getD i 0 =
          ((readS16 (file.drop 44) (4 * i) : ℚ) / 32768 +
           (readS16 (file.drop 44) (4 * i + 2) : ℚ) / 32768) / 2) := by
  obtain ⟨hch, hpcm⟩ := read_wav_file_16 fob file audio h hbits
  have hval : ∀ i, i < (readS32 file 40).toNat / 2 / (readS16 file 22).toNat →
      audio.pcm.getD i 0 =
        (∑ j ∈ Finset.range (readS16 file 22).toNat,
          (readS16 (file.drop 44) (2 * (i * (readS16 file 22).toNat + j)) : ℚ) / 32768) /
          ((readS16 file 22).toNat : ℚ) := by
    intro i hi
    rw [hpcm, List.getD_eq_getElem _ _ (by simpa using hi), List.getElem_ofFn]
  refine ⟨by rw [hpcm, List.length_ofFn], fun i hi => ⟨hval i hi, ?_, ?_⟩, fun hch2 i hi => ?_⟩
  · rw [hval i hi]
    exact (avg16_bounds (file.drop 44) _ hch (fun j => 2 * (i * (readS16 file 22).toNat + j))).1
  · rw [hval i hi]
    exact (avg16_bounds (file.drop 44) _ hch (fun j => 2 * (i * (readS16 file 22).toNat + j))).2
  · rw [hval i (by rw [hch2]; exact hi), hch2]
    rw [Finset.sum_range_succ, Finset.sum_range_succ, Finset.sum_range_zero]
    have e1 : 2 * (i * 2 + 0) = 4 * i := by ring
    have e2 : 2 * (i * 2 + 1) = 4 * i + 2 := by ring
    rw [e1, e2]
    norm_num

/-- C5 witness: decoding the concrete 2-channel 16-bit file `wav16` yields
one sample, `(16384/32768 + (-16384)/32768)/2 = 0`, which is within
`[-1, 1]`. -/
theorem C5_witness :
    ([(0 : ℚ)] : List ℚ).length = (readS32 wav16 40).toNat / 2 / (readS16 wav16 22).toNat ∧
    -1 ≤ ([(0 : ℚ)] : List ℚ).getD 0 0 ∧ ([(0 : ℚ)] : List ℚ).getD 0 0 ≤ 1 := by
  have h := C5_sixteen_bit_decode (fun _ => 0) wav16 ⟨[0], 16000⟩ (by decide) (by decide)
  exact ⟨h.1, (h.2.1 0 (by decide)).2⟩

/-- Inversion of a successful 24-bit decode. -/
theorem read_wav_file_24 (fob : ℕ → ℚ) (file : List ℕ) (audio : DecodedAudio)
    (h : read_wav_file fob (some file) = some audio)
    (hbits : readS16 file 34 = 24) :
    0 < (readS16 file 22).toNat ∧
    audio.pcm = List.ofFn
      (fun i : Fin ((readS32 file 40).toNat / 3 / (readS16 file 22).toNat) =>
        (∑ j ∈ Finset.range (readS16 file 22).toNat,
          (sample24 (file.drop 44) (i.val * (readS16 file 22).toNat + j) : ℚ) / 2147483648) /
          ((readS16 file 22).toNat : ℚ)) := by
  simp only [read_wav_file] at h
  rw [hbits] at h
  norm_num at h
  obtain ⟨-, -, -, hch, -, -, heq⟩ := h
  exact ⟨by omega, by rw [← heq]; rfl⟩

/-- C2: in a successful 24-bit decode, every output sample is the channel
average of per-channel values reconstructed from the three data bytes
`b0, b1, b2` of that channel's sample as the signed 32-bit integer
`(b0 <<< 8) ||| (b1 <<< 16) ||| (b2 <<< 24)` (low byte omitted, shifts
into bits 8/16/24) divided by 2147483648. -/
theorem C2_twentyfour_bit_decode (fob : ℕ → ℚ) (file : List ℕ) (audio : DecodedAudio)
    (h : read_wav_file fob (some file) = some audio)
    (hbits : readS16 file 34 = 24) :
    ∀ i, i < audio.pcm.length →
      audio.pcm.getD i 0 =
        (∑ j ∈ Finset.range (readS16 file 22).toNat,
          (toSigned32
            ((byteAt (file.drop 44) (3 * (i * (readS16 file 22).toNat + j)) <<< 8) |||
             (byteAt (file.drop 44) (3 * (i * (readS16 file 22).toNat + j) + 1) <<< 16) |||
             (byteAt (file.drop 44) (3 * (i * (readS16 file 22).toNat + j) + 2) <<< 24)) : ℚ) /
            2147483648) / ((readS16 file 22).toNat : ℚ) := by
  obtain ⟨hch, hpcm⟩ := read_wav_file_24 fob file audio h hbits
  intro i hi
  rw [hpcm] at hi ⊢
  rw [List.length_ofFn] at hi
  rw [List.getD_eq_getElem _ _ (by simpa using hi), List.getElem_ofFn]
  rfl

/-- C2 witness: decoding the mono 24-bit file `wav24`, whose only sample
has data bytes 1, 2, 3, yields the value
`((1 <<< 8) ||| (2 <<< 16) ||| (3 <<< 24)) / 2147483648 =
50462976 / 2147483648`. -/
theorem C2_witness :
    read_wav_file (fun _ => 0) (some wav24) =
      some ⟨[(50462976 : ℚ) / 2147483648], 16000⟩ ∧
    ([(50462976 : ℚ) / 2147483648] : List ℚ).getD 0 0 =
      (∑ j ∈ Finset.range (readS16 wav24 22).toNat,
        (toSigned32
          ((byteAt (wav24.drop 44) (3 * (0 * (readS16 wav24 22).toNat + j)) <<< 8) |||
           (byteAt (wav24.drop 44) (3 * (0 * (readS16 wav24 22).toNat + j) + 1) <<< 16) |||
           (byteAt (wav24.drop 44) (3 * (0 * (readS16 wav24 22).toNat + j) + 2) <<< 24)) : ℚ) /
          2147483648) / ((readS16 wav24 22).toNat : ℚ) := by
  have hdec : read_wav_file (fun _ => 0) (some wav24) =
      some ⟨[(50462976 : ℚ) / 2147483648], 16000⟩ := by decide
  exact ⟨hdec, C2_twentyfour_bit_decode (fun _ => 0) wav24 _ hdec (by decide) 0 (by decide)⟩

theorem string_empty_append (s : String) : "" ++ s = s := by
  cases s with
  | mk data => rfl

theorem string_append_empty (s : String) : s ++ "" = s := by
  cases s with
  | mk data => show String.mk (data ++ []) = String.mk data; rw [List.append_nil]

theorem string_append_assoc (a b c : String) : a ++ b ++ c = a ++ (b ++ c) := by
  cases a with | mk da => cases b with | mk db => cases c with | mk dc =>
    show String.mk (da ++ db ++ dc) = String.mk (da ++ (db ++ dc))
    rw [List.append_assoc]

theorem bigSeg_length : bigSeg.length = 32768 := by
  show (String.mk (List.replicate 32768 'a')).length = 32768
  rw [show (String.mk (List.replicate 32768 'a')).length =
    (List.replicate 32768 'a').length from rfl, List.length_replicate]

/-- On an always-succeeding allocation oracle, one loop step with a
segment that fits (plus separator and terminator) in at most one doubling
appends the segment, never reports `ub`, and keeps capacity at least the
initial 16384.  The extra bound `buf.length + s.length + 2 ≤ 2^30` keeps
both the length `int` arithmetic and the capacity doubling inside
`INT_MAX`. -/
theorem concatStep_spec (s : String) (isLast : Bool) (buf : String) (cap : ℕ)
    (hsl : s.length ≤ 16383) (hcap : 16384 ≤ cap) (hbuf : buf.length + 1 ≤ cap)
    (hfit30 : buf.length + s.length + 2 ≤ 1073741824) :
    ∃ cap', concatStep s isLast buf cap [] = appendPart s isLast buf cap' [] ∧
      16384 ≤ cap' ∧ buf.length + s.length + 2 ≤ cap' := by
  unfold concatStep
  rw [if_neg (by simp only [intMax]; omega)]
  by_cases hg : buf.length + s.length + 2 > cap
  · rw [if_pos hg, if_neg (by simp only [intMax]; omega)]
    exact ⟨cap * 2, rfl, by omega, by omega⟩
  · rw [if_neg hg]
    exact ⟨cap, rfl, by omega, by omega⟩

theorem appendPart_spec (s : String) (isLast : Bool) (buf : String) (cap' : ℕ)
    (hfit : buf.length + s.length + 2 ≤ cap') :
    appendPart s isLast buf cap' [] =
      .done (if isLast then buf ++ s else buf ++ s ++ " ") cap' [] := by
  unfold appendPart
  rw [if_neg (by omega)]
  cases isLast with
  | true => simp
  | false =>
    simp only [Bool.false_eq_true, if_false]
    rw [if_neg (by simp [String.length_append]; omega)]

/-- The concatenation loop on an always-succeeding allocation oracle, when
every remaining segment is at most 16383 bytes and the final content
(plus separator and terminator) stays within 2^30 bytes — i.e. the `int`
arithmetic never overflows: it finishes with the segments appended,
separated by single spaces. -/
theorem concatGo_spec (segs : List String) : ∀ (buf : String) (cap : ℕ),
    (∀ s ∈ segs, s.length ≤ 16383) → 16384 ≤ cap → buf.length + 1 ≤ cap →
    (buf ++ joinSpace segs).length + 2 ≤ 1073741824 →
    ∃ cap2, concatGo segs buf cap [] = LoopResult.done (buf ++ joinSpace segs) cap2 [] := by
  induction segs with
  | nil =>
    intro buf cap _ _ _ _
    exact ⟨cap, by rw [show joinSpace [] = "" from rfl, string_append_empty]; rfl⟩
  | cons s rest ih =>
    intro buf cap hs hcap hbuf htot
    have hsl : s.length ≤ 16383 := hs s (List.mem_cons_self s rest)
    have hrest : ∀ t ∈ rest, t.length ≤ 16383 := fun t ht => hs t (List.mem_cons_of_mem _ ht)
    cases rest with
    | nil =>
      have hfit30 : buf.length + s.length + 2 ≤ 1073741824 := by
        have hl : (buf ++ joinSpace [s]).length = buf.length + s.length := by
          rw [show joinSpace [s] = s from rfl, String.length_append]
        omega
      obtain ⟨cap', hstep, hcap', hfit⟩ := concatStep_spec s true buf cap hsl hcap hbuf hfit30
      refine ⟨cap', ?_⟩
      simp only [concatGo, List.isEmpty_nil, hstep, appendPart_spec s true buf cap' hfit,
        if_true, joinSpace]
    | cons t rest2 =>
      have hassoc : buf ++ joinSpace (s :: t :: rest2) =
          buf ++ s ++ " " ++ joinSpace (t :: rest2) := by
        rw [show joinSpace (s :: t :: rest2) = s ++ " " ++ joinSpace (t :: rest2) from rfl,
          string_append_assoc, string_append_assoc, string_append_assoc]
      have hlen_eq : (buf ++ joinSpace (s :: t :: rest2)).length =
          buf.length + s.length + 1 + (joinSpace (t :: rest2)).length := by
        rw [hassoc]
        simp only [String.length_append]
        have h1 : (" " : String).length = 1 := rfl
        omega
      have hfit30 : buf.length + s.length + 2 ≤ 1073741824 := by omega
      obtain ⟨cap', hstep, hcap', hfit⟩ := concatStep_spec s false buf cap hsl hcap hbuf hfit30
      have hbuf' : (buf ++ s ++ " ").length + 1 ≤ cap' := by
        simp only [String.length_append]
        have h1 : (" " : String).length = 1 := rfl
        omega
      have htot' : (buf ++ s ++ " " ++ joinSpace (t :: rest2)).length + 2 ≤ 1073741824 := by
        rw [← hassoc]; exact htot
      obtain ⟨cap2, hgo⟩ := ih (buf ++ s ++ " ") cap' hrest hcap' hbuf' htot'
      refine ⟨cap2, ?_⟩
      simp only [concatGo, List.isEmpty_cons, hstep, appendPart_spec s false buf cap' hfit,
        Bool.false_eq_true, if_false]
      rw [hassoc]
      exact hgo

/-- `collectResult` under an always-succeeding allocation oracle, at least
one segment, all segments at most 16383 bytes, and a joined result within
2^30 - 2 bytes: the space-joined segment texts are stored and returned. -/
theorem collectResult_done (E : Engine) (p : FullParams) (pcm : List ℚ) (n : ℤ)
    (w : Wrapper) (ev : List Event)
    (hnseg : 1 ≤ E.nSegments p pcm n)
    (hlen : ∀ s ∈ segmentTexts E p pcm n, s.length ≤ 16383)
    (htot : (joinSpace (segmentTexts E p pcm n)).length + 2 ≤ 1073741824) :
    collectResult E p pcm n [] w ev =
      { ret := some (joinSpace (segmentTexts E p pcm n)),
        wrapper := some { w with result_buffer := some (joinSpace (segmentTexts E p pcm n)) },
        events := ev } := by
  unfold collectResult
  rw [if_neg (by omega), if_neg (by decide)]
  obtain ⟨cap2, hgo⟩ := concatGo_spec (segmentTexts E p pcm n) "" 16384 hlen (by norm_num)
    (by rw [show ("" : String).length = 0 from rfl]; omega)
    (by rw [string_empty_append]; exact htot)
  rw [show (takeAlloc ([] : List Bool)).2 = [] from rfl]
  simp only [hgo, string_empty_append]

/-- The concatenation loop overflows on a single 32768-byte segment: the
grow check doubles the capacity once, 16384 → 32768, and the following
`strcat` would write 32769 bytes. -/
theorem concatGo_cons_ub (seg : String) (rest : List String) (buf : String) (cap : ℕ)
    (allocs : List Bool) (h : concatStep seg rest.isEmpty buf cap allocs = LoopResult.ub) :
    concatGo (seg :: rest) buf cap allocs = LoopResult.ub := by
  unfold concatGo
  rw [h]

theorem concat_overflow_of_len (s : String) (h : s.length = 32768) :
    concatGo [s] "" 16384 [] = LoopResult.ub := by
  apply concatGo_cons_ub
  unfold concatStep
  rw [if_neg (by rw [show ("" : String).length = 0 from rfl, h]; norm_num [intMax]),
    if_pos (by rw [show ("" : String).length = 0 from rfl, h]; norm_num),
    if_neg (by norm_num [intMax]),
    if_pos (show (takeAlloc ([] : List Bool)).1 = true from rfl)]
  unfold appendPart
  rw [if_pos (by rw [show ("" : String).length = 0 from rfl, h]; norm_num)]

/-- The other undefined-behaviour path of the loop, which forces the
total-size bound of the amended C1: once the capacity has grown to 2^30
bytes (reachable, `16384 * 2^16`), content that still does not fit
triggers `buffer_size *= 2`, which overflows the signed 32-bit
`buffer_size`. -/
theorem concatStep_cap_overflow (seg : String) (isLast : Bool) (buf : String)
    (allocs : List Bool)
    (h1 : buf.length + seg.length + 2 ≤ intMax)
    (h2 : buf.length + seg.length + 2 > 1073741824) :
    concatStep seg isLast buf 1073741824 allocs = LoopResult.ub := by
  unfold concatStep
  rw [if_neg (by omega), if_pos h2, if_pos (by norm_num [intMax])]

/-- On a loaded handle, with every allocation succeeding, when the
engine's inference succeeds and reports exactly one segment whose text is
32768 bytes long, the PCM transcription call runs into the overflowing
`strcat`: the result is the undefined-behaviour marker. -/
theorem pcm_overflow_general (E : Engine) (dp : FullParams) (w : Wrapper) (pcm : List ℚ)
    (n : ℤ) (lang : Bool) (s : String)
    (hctx : w.ctx = true) (hn : ¬ n ≤ 0)
    (hstat : E.fullStatus
      { setup_params dp lang with no_context := true, single_segment := true } pcm n = 0)
    (hnseg : E.nSegments
      { setup_params dp lang with no_context := true, single_segment := true } pcm n = 1)
    (hsegtext : segmentTexts E
      { setup_params dp lang with no_context := true, single_segment := true } pcm n = [s])
    (hslen : s.length = 32768) :
    (whisper_wrapper_transcribe_pcm_with_lang E dp [] (some w) (some pcm) n lang).ret = none := by
  simp only [whisper_wrapper_transcribe_pcm_with_lang, hctx, Bool.true_eq_false, false_or,
    if_neg hn]
  simp only [transcribePcmTail, hstat, ne_eq, not_true_eq_false, if_false,
    not_false_eq_true, if_true]
  simp only [collectResult, hnseg, hsegtext, takeAlloc, concat_overflow_of_len s hslen]
  norm_num

/-- C1 counterexample: on a loaded handle, with every allocation
succeeding and an engine returning a single segment of 32768 bytes, the
PCM transcription call does not return the space-joined segment texts
(which would be that segment itself): the single capacity doubling
16384 → 32768 is not repeated, the appending `strcat` overflows the
buffer, and the model reports undefined behaviour (`ret = none`). -/
theorem C1_counterexample :
    (whisper_wrapper_transcribe_pcm_with_lang overflowEngine P0 [] (some ⟨true, none⟩)
      (some [0]) 1 true).ret = none ∧
    joinSpace (segmentTexts overflowEngine
      { setup_params P0 true with no_context := true, single_segment := true } [0] 1) =
      bigSeg := by
  exact ⟨pcm_overflow_general overflowEngine P0 ⟨true, none⟩ [0] 1 true bigSeg rfl
    (by norm_num) rfl rfl rfl bigSeg_length, rfl⟩

/-- C1 (amended): on a loaded handle, when every allocation succeeds, the
engine's inference succeeds with at least one segment, every single
segment text is at most 16383 bytes, and the joined result (separator
spaces included) is at most 2^30 - 2 bytes, both transcription functions
return the concatenation of all segment texts with exactly one space
between consecutive segments and no trailing space, built in a buffer
starting at 16 KiB capacity that is doubled (at most once per segment)
whenever the next append would exceed it.  Neither bound can be dropped:
the doubling is not repeated until the text fits, so a single 32768-byte
segment overflows the once-doubled buffer (see the counterexample), and
past a 2^30-byte total the next `buffer_size *= 2` overflows the signed
32-bit `buffer_size` (see `concatStep_cap_overflow`). -/
theorem C1_segment_concatenation (E : Engine) (dp : FullParams) (fob : ℕ → ℚ) (w : Wrapper)
    (contents : Option (List ℕ)) (audio : DecodedAudio) (pcm : List ℚ) (n : ℤ) (lang : Bool)
    (hctx : w.ctx = true)
    (hdec : read_wav_file fob contents = some audio)
    (hstatF : E.fullStatus (setup_params dp lang) audio.pcm (audio.pcm.length : ℤ) = 0)
    (hnsegF : 1 ≤ E.nSegments (setup_params dp lang) audio.pcm (audio.pcm.length : ℤ))
    (hlenF : ∀ s ∈ segmentTexts E (setup_params dp lang) audio.pcm (audio.pcm.length : ℤ),
      s.length ≤ 16383)
    (htotF : (joinSpace (segmentTexts E (setup_params dp lang) audio.pcm
      (audio.pcm.length : ℤ))).length + 2 ≤ 1073741824)
    (hn : 0 < n)
    (hstatP : E.fullStatus
      { setup_params dp lang with no_context := true, single_segment := true } pcm n = 0)
    (hnsegP : 1 ≤ E.nSegments
      { setup_params dp lang with no_context := true, single_segment := true } pcm n)
    (hlenP : ∀ s ∈ segmentTexts E
      { setup_params dp lang with no_context := true, single_segment := true } pcm n,
      s.length ≤ 16383)
    (htotP : (joinSpace (segmentTexts E
      { setup_params dp lang with no_context := true, single_segment := true } pcm n)).length +
      2 ≤ 1073741824) :
    (whisper_wrapper_transcribe_with_lang E dp fob [] (some w) (some contents) lang).ret =
      some (joinSpace
        (segmentTexts E (setup_params dp lang) audio.pcm (audio.pcm.length : ℤ))) ∧
    (whisper_wrapper_transcribe_pcm_with_lang E dp [] (some w) (some pcm) n lang).ret =
      some (joinSpace (segmentTexts E
        { setup_params dp lang with no_context := true, single_segment := true } pcm n)) := by
  have hn' : ¬ n ≤ 0 := by omega
  constructor
  · simp only [whisper_wrapper_transcribe_with_lang, hctx, Bool.true_eq_false, if_false]
    simp only [transcribeFileTail, hdec, hstatF, ne_eq, not_true_eq_false, if_false,
      not_false_eq_true, if_true]
    rw [collectResult_done E _ _ _ _ _ hnsegF hlenF htotF]
  · simp only [whisper_wrapper_transcribe_pcm_with_lang, hctx, Bool.true_eq_false, false_or,
    if_neg hn']
    simp only [transcribePcmTail, hstatP, ne_eq, not_true_eq_false, if_false,
      not_false_eq_true, if_true]
    rw [collectResult_done E _ _ _ _ _ hnsegP hlenP htotP]

/-- C1 witness: on a loaded handle, an engine returning the two segments
"hello" and "world" makes both transcription functions return
"hello world" — one separating space, no trailing space. -/
theorem C1_witness :
    (whisper_wrapper_transcribe_with_lang stubEngine2 P0 (fun _ => 0) [] (some ⟨true, none⟩)
      (some (some wav16)) true).ret = some "hello world" ∧
    (whisper_wrapper_transcribe_pcm_with_lang stubEngine2 P0 [] (some ⟨true, none⟩)
      (some [0]) 1 true).ret = some "hello world" := by
  have h := C1_segment_concatenation stubEngine2 P0 (fun _ => 0) ⟨true, none⟩ (some wav16)
    ⟨[0], 16000⟩ [0] 1 true rfl (by decide) (by decide) (by decide) (by decide) (by decide)
    (by decide) (by decide) (by decide) (by decide) (by decide)
  exact ⟨by rw [h.1]; rfl, by rw [h.2]; rfl⟩

/-- C8: for a file-transcription call that reaches the engine (loaded
handle, decodable WAV): a nonzero inference status yields exactly
"Error: Failed to process audio with whisper"; a successful inference
with zero or fewer segments yields exactly "No speech detected"; a failed
allocation of the initial 16 KiB result buffer returns the allocation
sentinel with no partial output stored; and a failed `realloc` during
buffer growth discards the partially built output, storing and returning
the allocation sentinel.  On every one of these exit paths the decoded
PCM buffer is released (`freePcm` is in the event trace). -/
theorem C8_failure_paths (E : Engine) (dp : FullParams) (fob : ℕ → ℚ) (allocs : List Bool)
    (w : Wrapper) (contents : Option (List ℕ)) (audio : DecodedAudio) (lang : Bool)
    (p : FullParams) (nI : ℤ) (r : CallResult)
    (hctx : w.ctx = true)
    (hdec : read_wav_file fob contents = some audio)
    (hp : p = setup_params dp lang) (hnI : nI = (audio.pcm.length : ℤ))
    (hr : r = whisper_wrapper_transcribe_with_lang E dp fob allocs (some w) (some contents) lang) :
    (E.fullStatus p audio.pcm nI ≠ 0 →
      r.ret = some processErrorMsg ∧ Event.freePcm ∈ r.events) ∧
    (E.fullStatus p audio.pcm nI = 0 → E.nSegments p audio.pcm nI ≤ 0 →
      r.ret = some noSpeechMsg ∧ Event.freePcm ∈ r.events) ∧
    (E.fullStatus p audio.pcm nI = 0 → ¬ E.nSegments p audio.pcm nI ≤ 0 →
      (takeAlloc allocs).1 = false →
      r.ret = some allocErrorMsg ∧ r.wrapper = some ⟨w.ctx, none⟩ ∧
        Event.freePcm ∈ r.events) ∧
    (E.fullStatus p audio.pcm nI = 0 → ¬ E.nSegments p audio.pcm nI ≤ 0 →
      (takeAlloc allocs).1 = true →
      concatGo (segmentTexts E p audio.pcm nI) "" 16384 (takeAlloc allocs).2 =
        LoopResult.allocFail →
      r.ret = some allocErrorMsg ∧ r.wrapper = some ⟨w.ctx, some allocErrorMsg⟩ ∧
        Event.freePcm ∈ r.events) := by
  subst hp hnI hr
  simp only [whisper_wrapper_transcribe_with_lang, hctx, Bool.true_eq_false, if_false]
  simp only [transcribeFileTail, hdec]
  refine ⟨fun hst => ?_, fun hst hns => ?_, fun hst hns hal => ?_, fun hst hns hal hcg => ?_⟩
  · rw [if_pos hst]
    constructor
    · rfl
    · simp
  · rw [if_neg (by simp [hst])]
    simp only [collectResult, if_pos hns]
    exact ⟨by trivial, by simp⟩
  · rw [if_neg (by simp [hst])]
    simp only [collectResult, if_neg hns, hal, if_pos rfl]
    exact ⟨by trivial, by trivial, by simp⟩
  · rw [if_neg (by simp [hst])]
    simp only [collectResult, if_neg hns, hal, Bool.true_eq_false, if_false, hcg]
    exact ⟨by trivial, by trivial, by simp⟩

/-- C8 witness: on a loaded handle with the decodable file `wav16` and an
engine whose inference fails with status 1, the call returns exactly the
process-error sentinel and the decoded PCM buffer is freed. -/
theorem C8_witness :
    (whisper_wrapper_transcribe_with_lang failEngine P0 (fun _ => 0) [] (some ⟨true, none⟩)
      (some (some wav16)) true).ret = some processErrorMsg ∧
    Event.freePcm ∈ (whisper_wrapper_transcribe_with_lang failEngine P0 (fun _ => 0) []
      (some ⟨true, none⟩) (some (some wav16)) true).events :=
  (C8_failure_paths failEngine P0 (fun _ => 0) [] ⟨true, none⟩ (some wav16) ⟨[0], 16000⟩
    true (setup_params P0 true) 1 _ rfl (by decide) rfl (by decide) rfl).1 (by decide)

end WhisperWrapper
